import Mathlib

/-!
# A Lean model of the `xml-doc` parser (`src/parser.rs`)

This file embeds the data model and the operations of the repository's single
source file `src/parser.rs` as executable Lean definitions, and proves the
specification's claims about them.  Rust `String` / byte-slice values are
modelled as `List Nat` byte sequences; machine bytes never overflow in the
modelled code, so plain `Nat` is used.  The parts of the repository that are
declared outside `src/` (the document arena of `crate::document` /
`crate::element`) and the external collaborators (`encoding_rs`, `quick_xml`)
are modelled from the specification at their interface boundary; each such
definition carries a doc comment saying so.
-/

namespace XmlDoc

/-- ASCII string literal to its byte sequence (convenience for concrete bytes). -/
def ascii (s : String) : List Nat :=
  s.data.map Char.toNat

/-- The whitespace byte class of `normalize_space` (src/parser.rs 389):
`\r` (13), `\n` (10), `\t` (9) and space (32). -/
def isWS (b : Nat) : Bool :=
  b == 13 || b == 10 || b == 9 || b == 32

/-- The loop of `normalize_space` (src/parser.rs 385-401): iterate over the
bytes carrying the `char_found` and `last_space` flags, emitting a single
space for a whitespace run that follows at least one non-whitespace byte. -/
def normLoop : List Nat → Bool → Bool → List Nat
  | [], _, _ => []
  | b :: rest, char_found, last_space =>
    if isWS b then
      if char_found && !last_space then 32 :: normLoop rest char_found true
      else normLoop rest char_found last_space
    else b :: normLoop rest true false

/-- `normalize_space` (src/parser.rs 383-407): run the loop, then drop the
single trailing space the loop may have emitted for a trailing run. -/
def normalize_space (bytes : List Nat) : List Nat :=
  let normalized := normLoop bytes false false
  if normalized.getLast? = some 32 then normalized.dropLast else normalized

/-- Longest leading run of non-whitespace bytes (specification-side helper). -/
def firstTok : List Nat → List Nat
  | [] => []
  | b :: r => if isWS b then [] else b :: firstTok r

/-- What remains of the list after its leading non-whitespace run. -/
def dropTok : List Nat → List Nat
  | [] => []
  | b :: r => if isWS b then b :: r else dropTok r

/-- Accumulator form of `tokens`: `acc` holds the reversed bytes of the
non-whitespace run being scanned. -/
def tokensAcc : List Nat → List Nat → List (List Nat)
  | [], acc => if acc = [] then [] else [acc.reverse]
  | b :: rest, acc =>
    if isWS b then
      if acc = [] then tokensAcc rest [] else acc.reverse :: tokensAcc rest []
    else tokensAcc rest (b :: acc)

/-- The maximal non-whitespace runs of a byte sequence, in order
(specification-side: the words of §4.1 split the value into such runs). -/
def tokens (l : List Nat) : List (List Nat) :=
  tokensAcc l []

/-- Tail of joining runs with single spaces: a separator before each run. -/
def joinRest : List (List Nat) → List Nat
  | [] => []
  | t :: ts => 32 :: (t ++ joinRest ts)

/-- Join runs with a single space (32) between consecutive runs. -/
def joinWS : List (List Nat) → List Nat
  | [] => []
  | t :: ts => t ++ joinRest ts

/-- `normalize_space` as §4.1 of the specification words it: every run of
whitespace between non-whitespace runs becomes one space, and leading and
trailing whitespace runs are dropped entirely — i.e. the non-whitespace runs
joined by single spaces. -/
def normalize_space_spec (bytes : List Nat) : List Nat :=
  joinWS (tokens bytes)

/-- Does the sequence start with a whitespace byte? -/
def startsWS : List Nat → Bool
  | [] => false
  | b :: _ => isWS b

/-- Does the sequence end with a whitespace byte? -/
def endsWS (l : List Nat) : Bool :=
  match l.getLast? with
  | some b => isWS b
  | none => false

/-- The single space `normLoop` emits for a trailing whitespace run (it is
emitted only when some non-whitespace byte occurred before the run). -/
def trailMark (l : List Nat) : List Nat :=
  if tokens l = [] then [] else if endsWS l then [32] else []

/-- Value of `normLoop l false false` and of `normLoop l true true`. -/
def normFound (l : List Nat) : List Nat :=
  joinWS (tokens l) ++ trailMark l

/-- Value of `normLoop l true false`. -/
def normAfterChar (l : List Nat) : List Nat :=
  (if startsWS l then [32] else []) ++ normFound l

/-- The encodings the parser manipulates (src/parser.rs 5 imports exactly
`UTF_16BE`, `UTF_16LE`, `UTF_8` from the external conversion library). -/
inductive Encoding where
  | utf8
  | utf16be
  | utf16le
deriving DecidableEq

/-- Modelled from the spec (§6): the external stateful decoder object is
opaque; we record the encoding it was built for and whether it was built with
BOM handling (`new_decoder_without_bom_handling` gives `bomHandling = false`).
Its incremental conversion state lives in the external library. -/
structure Decoder where
  encoding : Encoding
  bomHandling : Bool
deriving DecidableEq

/-- Modelled from the spec (§7): `crate::error::Error` is not under `src/`;
only the kinds `src/parser.rs` surfaces are modelled.  `conversionFailure` is
§7's invalid-text-encoding kind — "decoded bytes … are not valid UTF-8 text
(surfaced as a conversion failure)" — produced by the `?` operator on the
`from_utf8` calls (the `From` conversion lives in `crate::error`). -/
inductive Error where
  | cannotDecode
  | malformedXML (msg : String)
  | conversionFailure
deriving DecidableEq

/-- `DocumentParser::sniff_encoding` (src/parser.rs 304-331), as a function of
the raw leading bytes returned by the decode buffer's `fill_buf` (no decoder
is configured yet, so `fill_buf` passes raw bytes through).  The second
component is the amount the source passes to `consume` (the BOM bytes). -/
def sniff_encoding (bytes : List Nat) : Option Encoding × Nat :=
  match bytes with
  | 0x3c :: 0x3f :: _ => (none, 0)
  | 0xfe :: 0xff :: _ => (some Encoding.utf16be, 2)
  | 0xff :: 0xfe :: _ => (some Encoding.utf16le, 2)
  | 0xef :: 0xbb :: 0xbf :: _ => (none, 3)
  | 0x00 :: 0x3c :: 0x00 :: 0x3f :: _ => (some Encoding.utf16be, 0)
  | 0x3c :: 0x00 :: 0x3f :: 0x00 :: _ => (some Encoding.utf16le, 0)
  | _ => (none, 0)

/-- The state of `DecodeReader` (src/parser.rs 19-30).  The wrapped raw byte
source `inner` is external I/O and is not part of the modelled state; the two
fixed-size buffers are modelled as byte lists. -/
structure DecodeReader where
  decoder : Option Decoder
  undecoded : List Nat
  undecoded_pos : Nat
  undecoded_cap : Nat
  remaining : List Nat
  decoded : List Nat
  decoded_pos : Nat
  decoded_cap : Nat
  done : Bool
deriving DecidableEq

/-- `DecodeReader::new` (src/parser.rs 34-47). -/
def DecodeReader.new (decoder : Option Decoder) : DecodeReader :=
  { decoder := decoder
    undecoded := List.replicate 4096 0
    undecoded_pos := 0
    undecoded_cap := 0
    remaining := List.replicate 32 0
    decoded := List.replicate 12288 0
    decoded_pos := 0
    decoded_cap := 0
    done := false }

/-- `DecodeReader::set_encoding` (src/parser.rs 49-52): replace the decoder
with a fresh one for the given encoding (built without BOM handling) and
clear the `done` flag. -/
def DecodeReader.set_encoding (r : DecodeReader) (encoding : Option Encoding) : DecodeReader :=
  { r with decoder := encoding.map (fun e => { encoding := e, bomHandling := false })
           done := false }

/-- The buffered-but-undecoded bytes of a `DecodeReader`: the slice between
the read cursor and the fill level of the undecoded buffer. -/
def DecodeReader.undecodedWindow (r : DecodeReader) : List Nat :=
  (r.undecoded.drop r.undecoded_pos).take (r.undecoded_cap - r.undecoded_pos)

/-- Modelled from the spec: `str::to_lowercase` of the Rust standard library,
restricted to ASCII.  The parser only compares lowercased values against the
ASCII words "yes" and "no" (and encoding labels); no character outside ASCII
lowercases to an ASCII letter of those words, so the ASCII restriction is
faithful on every byte the comparisons can distinguish. -/
def to_lowercase (bytes : List Nat) : List Nat :=
  bytes.map (fun b => if 65 ≤ b ∧ b ≤ 90 then b + 32 else b)

/-- Modelled from the spec (§6, §4.4, §9): `encoding_rs::Encoding::for_label`,
the external encoding-name lookup.  Only the labels the specification
discusses are modelled; matching is ASCII-case-insensitive, and per §9 the
generic "UTF-16" label resolves to little-endian UTF-16. -/
def for_label (label : List Nat) : Option Encoding :=
  let l := to_lowercase label
  if l = ascii "utf-8" ∨ l = ascii "utf8" then some Encoding.utf8
  else if l = ascii "utf-16" ∨ l = ascii "utf-16le" then some Encoding.utf16le
  else if l = ascii "utf-16be" then some Encoding.utf16be
  else none

/-- The encoding-attribute step of `DocumentParser::handle_decl`
(src/parser.rs 178-188): resolve the declared label, failing with
`CannotDecode` on an unknown label, and normalise UTF-8 to `none`. -/
def decl_encoding : Option (List Nat) → Except Error (Option Encoding)
  | some label =>
    match for_label label with
    | none => Except.error Error.cannotDecode
    | some e => Except.ok (if e = Encoding.utf8 then none else some e)
  | none => Except.ok none

/-- Modelled from the Rust standard library (external to the repository):
the byte-level state machine of the validity check of `std::str::from_utf8` /
`String::from_utf8`, i.e. Unicode's well-formed UTF-8 byte sequences
(Table 3-7).  `rem` is how many continuation bytes the current sequence still
expects, and `lo`/`hi` bound the next byte: `C2`-`DF` start 2-byte sequences;
`E0` / `E1`-`EC`,`EE`,`EF` / `ED` start 3-byte sequences whose restricted
second bytes exclude overlongs and surrogates; `F0` / `F1`-`F3` / `F4` start
4-byte sequences whose restricted second bytes exclude overlongs and
anything above U+10FFFF; later continuation bytes are `80`-`BF`. -/
def utf8Aux : List Nat → Nat → Nat → Nat → Bool
  | [], rem, _, _ => rem == 0
  | b :: rest, rem, lo, hi =>
    if rem = 0 then
      if b ≤ 0x7f then utf8Aux rest 0 0 0
      else if 0xc2 ≤ b ∧ b ≤ 0xdf then utf8Aux rest 1 0x80 0xbf
      else if b = 0xe0 then utf8Aux rest 2 0xa0 0xbf
      else if (0xe1 ≤ b ∧ b ≤ 0xec) ∨ b = 0xee ∨ b = 0xef then utf8Aux rest 2 0x80 0xbf
      else if b = 0xed then utf8Aux rest 2 0x80 0x9f
      else if b = 0xf0 then utf8Aux rest 3 0x90 0xbf
      else if 0xf1 ≤ b ∧ b ≤ 0xf3 then utf8Aux rest 3 0x80 0xbf
      else if b = 0xf4 then utf8Aux rest 3 0x80 0x8f
      else false
    else
      if lo ≤ b ∧ b ≤ hi then utf8Aux rest (rem - 1) 0x80 0xbf
      else false

/-- Whether a byte sequence is well-formed UTF-8, per `std::str::from_utf8`:
run the state machine expecting a fresh lead byte. -/
def valid_utf8 (bytes : List Nat) : Bool :=
  utf8Aux bytes 0 0 0

/-- The standalone-attribute step of `DocumentParser::handle_decl`
(src/parser.rs 189-203): `std::str::from_utf8` first (a value that is not
valid UTF-8 aborts with the conversion error), then lowercase the text and
compare against "yes" and "no", failing with a malformed-XML error
otherwise; absent means `false`. -/
def parse_standalone : Option (List Nat) → Except Error Bool
  | some bytes =>
    if valid_utf8 bytes then
      let val := to_lowercase bytes
      if val = ascii "yes" then Except.ok true
      else if val = ascii "no" then Except.ok false
      else Except.error (Error.malformedXML "Standalone Document Declaration has non boolean value")
    else Except.error Error.conversionFailure
  | none => Except.ok false

/-- A node of the document tree.  Modelled from the spec (§3):
`crate::document::Node` is not under `src/`; element nodes hold a handle into
the document's arena, the other kinds own their byte content. -/
inductive Node where
  | element (handle : Nat)
  | text (content : List Nat)
  | comment (content : List Nat)
  | cdata (content : List Nat)
  | docType (content : List Nat)
  | pi (content : List Nat)
deriving DecidableEq

/-- The record stored in the arena for one element.  Modelled from the spec
(§3): qualified name as written, ordered children, attribute map and
namespace-declaration map (maps as association lists, last write wins). -/
structure ElementData where
  full_name : List Nat
  children : List Node
  attributes : List (List Nat × List Nat)
  namespace_decls : List (List Nat × List Nat)
deriving DecidableEq

/-- Modelled from the spec (§3): `crate::document::Document` is not under
`src/`.  It owns the arena of element records (an element handle is an index
into it; the root container is handle 0) and the declaration metadata. -/
structure Document where
  arena : List ElementData
  version : List Nat
  standalone : Bool
deriving DecidableEq

/-- Modelled from the spec (§3): a new document holds only the root
container, and `standalone` defaults to `false`. -/
def Document.new : Document :=
  { arena := [{ full_name := [], children := [], attributes := [], namespace_decls := [] }]
    version := ascii "1.0"
    standalone := false }

/-- Modelled from the spec (§3): `Document::container`, the handle of the
implicit root used to collect top-level nodes. -/
def Document.container (_doc : Document) : Nat := 0

/-- Rewrite the arena record of one element (no-op on a dangling handle;
per §3's invariant every handle the parser uses is valid). -/
def setElem (doc : Document) (e : Nat) (f : ElementData → ElementData) : Document :=
  match doc.arena[e]? with
  | some ed => { doc with arena := doc.arena.set e (f ed) }
  | none => doc

/-- Modelled from the spec (§3, §4.4): `Element::push_child` appends a node
at the end of the element's ordered children. -/
def push_child (doc : Document) (parent : Nat) (n : Node) : Document :=
  setElem doc parent (fun ed => { ed with children := ed.children ++ [n] })

/-- Modelled from the spec (§3): `Element::new` allocates a fresh element
record in the arena and hands back its handle. -/
def Element.new (doc : Document) (full_name : List Nat) : Document × Nat :=
  ({ doc with arena := doc.arena ++
      [{ full_name := full_name, children := [], attributes := [], namespace_decls := [] }] },
   doc.arena.length)

/-- Modelled from the spec (§4.4): `Element::has_children`, whether the
element has any child at all. -/
def has_children (doc : Document) (e : Nat) : Bool :=
  match doc.arena[e]? with
  | some ed => !ed.children.isEmpty
  | none => false

/-- The children list of an element (observer on the model). -/
def childrenOf (doc : Document) (e : Nat) : List Node :=
  match doc.arena[e]? with
  | some ed => ed.children
  | none => []

/-- The attribute map of an element (observer on the model). -/
def attributesOf (doc : Document) (e : Nat) : List (List Nat × List Nat) :=
  match doc.arena[e]? with
  | some ed => ed.attributes
  | none => []

/-- The namespace-declaration map of an element (observer on the model). -/
def namespacesOf (doc : Document) (e : Nat) : List (List Nat × List Nat) :=
  match doc.arena[e]? with
  | some ed => ed.namespace_decls
  | none => []

/-- Insert into an association-list map: overwrite the binding if the key is
present, append it otherwise (the model of `HashMap::insert`). -/
def insertA (m : List (List Nat × List Nat)) (k v : List Nat) : List (List Nat × List Nat) :=
  match m with
  | [] => [(k, v)]
  | (k', v') :: rest => if k' = k then (k, v) :: rest else (k', v') :: insertA rest k v

/-- Lookup in an association-list map. -/
def lookupA (m : List (List Nat × List Nat)) (k : List Nat) : Option (List Nat) :=
  match m with
  | [] => none
  | (k', v') :: rest => if k' = k then some v' else lookupA rest k

/-- Modelled from the spec (§6): `Attribute::unescaped_value` of the external
tokenizer expands entity references on demand; on values free of entity
references — all that the claims quantify over — it returns the bytes
unchanged. -/
def unescaped_value (v : List Nat) : List Nat := v

/-- The bytes of the attribute key "xmlns". -/
def xmlnsKey : List Nat := ascii "xmlns"

/-- The bytes of the attribute-key start "xmlns:". -/
def xmlnsColon : List Nat := ascii "xmlns:"

/-- `key.strip_prefix("xmlns:")` of src/parser.rs 221: the remainder of the
key when it starts with the bytes of "xmlns:". -/
def stripXmlns (key : List Nat) : Option (List Nat) :=
  if xmlnsColon.isPrefixOf key then some (key.drop xmlnsColon.length) else none

/-- The attribute loop of `DocumentParser::create_element`
(src/parser.rs 213-226): the value is whitespace-normalized and then
unescaped; a key exactly "xmlns" is routed into the namespace map under the
empty string, a key starting "xmlns:" under the remainder of the key, and
every other key goes to the attribute map. -/
def attrLoop : List (List Nat × List Nat) → List (List Nat × List Nat) →
    List (List Nat × List Nat) → List (List Nat × List Nat) × List (List Nat × List Nat)
  | [], namespaces, attributes => (namespaces, attributes)
  | (key, value) :: rest, namespaces, attributes =>
    let v := unescaped_value (normalize_space value)
    if key = xmlnsKey then attrLoop rest (insertA namespaces [] v) attributes
    else
      match stripXmlns key with
      | some p => attrLoop rest (insertA namespaces p v) attributes
      | none => attrLoop rest namespaces (insertA attributes key v)

/-- `DocumentParser::create_element` (src/parser.rs 207-230): allocate the
element, run the attribute loop (the element's two maps start empty, so
inserting during the loop and extending afterwards both amount to setting
the collected maps), then attach the element under its parent. -/
def create_element (doc : Document) (parent : Nat) (name : List Nat)
    (attrs : List (List Nat × List Nat)) : Document × Nat :=
  let alloc := Element.new doc name
  let maps := attrLoop attrs [] []
  let doc1 := setElem alloc.1 alloc.2
    (fun ed => { ed with attributes := maps.2, namespace_decls := maps.1 })
  let doc2 := push_child doc1 parent (Node.element alloc.2)
  (doc2, alloc.2)

/-- `ReadOptions` (src/parser.rs 136-141); the optional caller encoding
override is a label byte string. -/
structure ReadOptions where
  empty_text_node : Bool
  trim_text : Bool
  require_decl : Bool
  encoding : Option (List Nat)
deriving DecidableEq

/-- `ReadOptions::default` (src/parser.rs 144-151). -/
def ReadOptions.default : ReadOptions :=
  { empty_text_node := true, trim_text := true, require_decl := true, encoding := none }

/-- The state of `DocumentParser` (src/parser.rs 155-160).  The open-element
stack is kept top-first: the head of the list is the top of the Rust `Vec`
(its last element), so `Vec::push`/`pop`/`last` are cons / uncons / head. -/
structure ParserState where
  document : Document
  read_opts : ReadOptions
  encoding : Option Encoding
  element_stack : List Nat
deriving DecidableEq

/-- The lexical events of the external tokenizer (spec §6;
`quick_xml::events::Event` in src/parser.rs).  Attribute keys and values are
raw byte pairs; the declaration event carries its three attributes. -/
inductive XEvent where
  | startTag (name : List Nat) (attrs : List (List Nat × List Nat))
  | endTag
  | emptyTag (name : List Nat) (attrs : List (List Nat × List Nat))
  | textEv (content : List Nat)
  | docTypeEv (content : List Nat)
  | commentEv (content : List Nat)
  | cdataEv (content : List Nat)
  | piEv (content : List Nat)
  | declEv (version : List Nat) (encLabel : Option (List Nat))
      (standaloneAttr : Option (List Nat))
  | eof
deriving DecidableEq

/-- Outcome of one `handle_event` step: `next finished st`, an `Err` return,
or a Rust panic (`.unwrap()` on an empty element stack). -/
inductive StepResult where
  | next (finished : Bool) (st : ParserState)
  | fail (e : Error)
  | panicked
deriving DecidableEq

/-- `DocumentParser::handle_decl` (src/parser.rs 176-205): store the version
(`String::from_utf8` aborts with the conversion error on invalid UTF-8 bytes,
line 177), resolve the declared encoding (failing on an unknown label), and
parse the standalone attribute (failing on a non-boolean value). -/
def handle_decl (st : ParserState) (version : List Nat)
    (encLabel standaloneAttr : Option (List Nat)) : Except Error ParserState :=
  if valid_utf8 version then
    let doc1 := { st.document with version := version }
    match decl_encoding encLabel with
    | Except.error e => Except.error e
    | Except.ok enc =>
      match parse_standalone standaloneAttr with
      | Except.error e => Except.error e
      | Except.ok standalone =>
        Except.ok { st with document := { doc1 with standalone := standalone }
                            encoding := enc }
  else Except.error Error.conversionFailure

/-- `DocumentParser::handle_event` (src/parser.rs 233-301), one event. -/
def handle_event (st : ParserState) : XEvent → StepResult
  | XEvent.startTag name attrs =>
    match st.element_stack with
    | [] => StepResult.panicked
    | parent :: _ =>
      let created := create_element st.document parent name attrs
      StepResult.next false
        { st with document := created.1, element_stack := created.2 :: st.element_stack }
  | XEvent.endTag =>
    match st.element_stack with
    | [] => StepResult.panicked
    | elem :: rest =>
      let st1 := { st with element_stack := rest }
      if st1.read_opts.empty_text_node then
        if has_children st1.document elem then StepResult.next false st1
        else StepResult.next false
          { st1 with document := push_child st1.document elem (Node.text []) }
      else StepResult.next false st1
  | XEvent.emptyTag name attrs =>
    match st.element_stack with
    | [] => StepResult.panicked
    | parent :: _ =>
      let created := create_element st.document parent name attrs
      StepResult.next false { st with document := created.1 }
  | XEvent.textEv content =>
    match st.element_stack with
    | [] => StepResult.panicked
    | parent :: _ =>
      StepResult.next false
        { st with document := push_child st.document parent (Node.text content) }
  | XEvent.docTypeEv content =>
    match st.element_stack with
    | [] => StepResult.panicked
    | parent :: _ =>
      StepResult.next false
        { st with document := push_child st.document parent (Node.docType content) }
  | XEvent.commentEv content =>
    match st.element_stack with
    | [] => StepResult.panicked
    | parent :: _ =>
      StepResult.next false
        { st with document :=
            push_child st.document parent (Node.comment (unescaped_value content)) }
  | XEvent.cdataEv content =>
    match st.element_stack with
    | [] => StepResult.panicked
    | parent :: _ =>
      StepResult.next false
        { st with document :=
            push_child st.document parent (Node.cdata (unescaped_value content)) }
  | XEvent.piEv content =>
    match st.element_stack with
    | [] => StepResult.panicked
    | parent :: _ =>
      StepResult.next false
        { st with document :=
            push_child st.document parent (Node.pi (unescaped_value content)) }
  | XEvent.declEv _ _ _ =>
    StepResult.fail (Error.malformedXML "XML declaration found in the middle of the document")
  | XEvent.eof =>
    StepResult.next true st

/-- Outcome of running the event loop on a list of events. -/
inductive RunResult where
  | done (st : ParserState)
  | outOfEvents (st : ParserState)
  | fail (e : Error)
  | panicked
deriving DecidableEq

/-- `DocumentParser::parse_content` (src/parser.rs 368-377): feed events to
`handle_event` until it reports the document finished, with the tokenizer's
event stream given as a list; `outOfEvents` marks the list running out
before an end-of-stream event. -/
def parse_content_events : ParserState → List XEvent → RunResult
  | st, [] => RunResult.outOfEvents st
  | st, ev :: rest =>
    match handle_event st ev with
    | StepResult.next true st' => RunResult.done st'
    | StepResult.next false st' => parse_content_events st' rest
    | StepResult.fail e => RunResult.fail e
    | StepResult.panicked => RunResult.panicked

/-- The initial parser state of `DocumentParser::parse_reader`
(src/parser.rs 163-171): a fresh document with the stack holding exactly the
root container. -/
def initial_state (opts : ReadOptions) : ParserState :=
  { document := Document.new
    read_opts := opts
    encoding := none
    element_stack := [Document.new.container] }

/-- Number of start-tag events in a list. -/
def startCount (l : List XEvent) : Nat :=
  l.countP (fun ev => match ev with | XEvent.startTag _ _ => true | _ => false)

/-- Number of end-tag events in a list. -/
def endCount (l : List XEvent) : Nat :=
  l.countP (fun ev => match ev with | XEvent.endTag => true | _ => false)

/-- The first half of `DocumentParser::parse_start` (src/parser.rs 334-339):
the encoding the decode buffer starts with — the caller override label
resolved if present (failing on an unknown label), the sniffed result
otherwise. -/
def init_encoding (sniffed : Option Encoding) : Option (List Nat) → Except Error (Option Encoding)
  | some label =>
    match for_label label with
    | none => Except.error Error.cannotDecode
    | some e => Except.ok (some e)
  | none => Except.ok sniffed

/-- The switch condition of `DocumentParser::parse_start`
(src/parser.rs 349-351): the stored declaration encoding differs from the
initial one, except when the declaration resolved to little-endian UTF-16
while the initial encoding was big-endian UTF-16. -/
def should_switch (self_encoding init_enc : Option Encoding) : Bool :=
  self_encoding != init_enc &&
    !(self_encoding == some Encoding.utf16le && init_enc == some Encoding.utf16be)

/-- The encoding-determination path of `DocumentParser::parse_start`
(src/parser.rs 334-356) when the first event is an XML declaration: from the
sniffed encoding, the caller override label and the declaration's encoding
label, the encoding the event parser ends up reading with, and whether the
decode buffer was reconfigured and the event parser rebuilt. -/
def parse_start_encoding (sniffed : Option Encoding)
    (overrideLabel declLabel : Option (List Nat)) : Except Error (Option Encoding × Bool) :=
  match init_encoding sniffed overrideLabel with
  | Except.error e => Except.error e
  | Except.ok init =>
    match decl_encoding declLabel with
    | Except.error e => Except.error e
    | Except.ok selfEnc =>
      if should_switch selfEnc init then Except.ok (selfEnc, true)
      else Except.ok (init, false)

/-- The encoding an `Option Encoding` decoder configuration decodes: `none`
is the passthrough that treats the stream as UTF-8 (spec §4.2). -/
def effectiveEncoding : Option Encoding → Encoding
  | none => Encoding.utf8
  | some e => e

/-- The processed value of one raw attribute value (src/parser.rs 215-217):
whitespace-normalized, then unescaped. -/
def processedValue (v : List Nat) : List Nat :=
  unescaped_value (normalize_space v)

/-- Which namespace-map key an attribute key is routed to (specification-side,
§4.4): "xmlns" to the empty string, "xmlns:&lt;p&gt;" to `p`, others nowhere. -/
def nsKeyOf (k : List Nat) : Option (List Nat) :=
  if k = xmlnsKey then some [] else stripXmlns k

/-- The processed value of the last attribute with the given key
(specification-side: last occurrence wins). -/
def lastValueOf (attrs : List (List Nat × List Nat)) (k : List Nat) : Option (List Nat) :=
  ((attrs.filter (fun a => a.1 == k)).map (fun a => processedValue a.2)).getLast?

/-- The processed value of the last attribute routed to the given namespace
map key (specification-side). -/
def lastNsValueOf (attrs : List (List Nat × List Nat)) (p : List Nat) : Option (List Nat) :=
  ((attrs.filter (fun a => nsKeyOf a.1 == some p)).map (fun a => processedValue a.2)).getLast?

/-! ## The space normalizer: characterization -/

lemma dropTok_length_le (l : List Nat) : (dropTok l).length ≤ l.length := by
  induction l with
  | nil => simp [dropTok]
  | cons c r ih =>
    simp only [dropTok]
    split
    · exact Nat.le_refl _
    · exact Nat.le_trans ih (by simp)

lemma tokensAcc_ne_nil : ∀ (l acc : List Nat), acc ≠ [] →
    tokensAcc l acc = (acc.reverse ++ firstTok l) :: tokens (dropTok l) := by
  intro l
  induction l with
  | nil =>
    intro acc h
    simp [tokensAcc, firstTok, dropTok, tokens, h]
  | cons b rest ih =>
    intro acc h
    cases hb : isWS b with
    | true =>
      simp only [tokensAcc, hb, if_pos rfl, if_neg h, firstTok, dropTok, if_true]
      simp [tokens, tokensAcc, hb]
    | false =>
      simp only [tokensAcc, hb, firstTok, dropTok, if_false]
      rw [ih (b :: acc) (by simp)]
      simp

lemma tokens_nil : tokens ([] : List Nat) = [] := rfl

lemma tokens_cons_ws {b : Nat} {rest : List Nat} (hb : isWS b = true) :
    tokens (b :: rest) = tokens rest := by
  simp [tokens, tokensAcc, hb]

lemma tokens_cons_char {b : Nat} {rest : List Nat} (hb : isWS b = false) :
    tokens (b :: rest) = (b :: firstTok rest) :: tokens (dropTok rest) := by
  have h1 : tokens (b :: rest) = tokensAcc rest [b] := by simp [tokens, tokensAcc, hb]
  rw [h1, tokensAcc_ne_nil rest [b] (by simp)]
  simp

lemma tokens_eq_nil {l : List Nat} (h : tokens l = []) : ∀ x ∈ l, isWS x = true := by
  induction l with
  | nil => simp
  | cons b rest ih =>
    cases hb : isWS b with
    | true =>
      rw [tokens_cons_ws hb] at h
      intro x hx
      rcases List.mem_cons.mp hx with rfl | hx'
      · exact hb
      · exact ih h x hx'
    | false =>
      rw [tokens_cons_char hb] at h
      simp at h


lemma all_ws_endsWS {l : List Nat} (hne : l ≠ []) (hall : ∀ x ∈ l, isWS x = true) :
    endsWS l = true := by
  unfold endsWS
  rw [List.getLast?_eq_getLast l hne]
  exact hall _ (List.getLast_mem hne)

lemma endsWS_cons_cons {b c : Nat} {r : List Nat} :
    endsWS (b :: c :: r) = endsWS (c :: r) := by
  unfold endsWS
  rw [List.getLast?_cons_cons]

lemma joinWS_cons_cons {t u : List Nat} {ts : List (List Nat)} :
    joinWS (t :: u :: ts) = t ++ 32 :: joinWS (u :: ts) := by
  simp [joinWS, joinRest]

lemma normFound_cons_ws {b : Nat} {rest : List Nat} (hb : isWS b = true) :
    normFound (b :: rest) = normFound rest := by
  unfold normFound trailMark
  rw [tokens_cons_ws hb]
  cases rest with
  | nil => simp [tokens_nil]
  | cons c r => rw [endsWS_cons_cons]

lemma normFound_cons_char {b : Nat} {rest : List Nat} (hb : isWS b = false) :
    normFound (b :: rest) = b :: normAfterChar rest := by
  cases rest with
  | nil =>
    simp [normFound, normAfterChar, trailMark, tokens_cons_char hb, firstTok, dropTok,
      tokens_nil, joinWS, joinRest, startsWS, endsWS, hb]
  | cons c r =>
    cases hc : isWS c with
    | true =>
      have hf : firstTok (c :: r) = [] := by simp [firstTok, hc]
      have hd : dropTok (c :: r) = c :: r := by simp [dropTok, hc]
      unfold normFound trailMark
      rw [tokens_cons_char hb, hf, hd]
      cases htk : tokens (c :: r) with
      | nil =>
        have hall : ∀ x ∈ (c :: r), isWS x = true := tokens_eq_nil htk
        have he : endsWS (c :: r) = true := all_ws_endsWS (by simp) hall
        have he2 : endsWS (b :: c :: r) = true := by rw [endsWS_cons_cons]; exact he
        simp [joinWS, joinRest, he2, he, normAfterChar, normFound, trailMark, htk,
          startsWS, hc]
      | cons t ts =>
        rw [joinWS_cons_cons]
        have he2 : endsWS (b :: c :: r) = endsWS (c :: r) := endsWS_cons_cons
        simp [he2, normAfterChar, normFound, trailMark, htk, startsWS, hc, joinWS,
          joinRest]
    | false =>
      have hf : firstTok (c :: r) = c :: firstTok r := by simp [firstTok, hc]
      have hd : dropTok (c :: r) = dropTok r := by simp [dropTok, hc]
      unfold normFound normAfterChar normFound trailMark
      rw [tokens_cons_char hb, hf, hd, tokens_cons_char hc]
      have he2 : endsWS (b :: c :: r) = endsWS (c :: r) := endsWS_cons_cons
      simp [he2, startsWS, hc, joinWS, joinRest]

lemma normLoop_spec : ∀ l : List Nat,
    normLoop l false false = normFound l ∧
    normLoop l true true = normFound l ∧
    normLoop l true false = normAfterChar l := by
  intro l
  induction l with
  | nil =>
    refine ⟨rfl, rfl, ?_⟩
    simp [normLoop, normAfterChar, normFound, trailMark, tokens_nil, joinWS, startsWS]
  | cons b rest ih =>
    obtain ⟨ih1, ih2, ih3⟩ := ih
    cases hb : isWS b with
    | true =>
      refine ⟨?_, ?_, ?_⟩
      · simp only [normLoop, hb, if_true, Bool.false_and, Bool.false_eq_true, if_false]
        rw [ih1, normFound_cons_ws hb]
      · simp only [normLoop, hb, if_true, Bool.not_true, Bool.and_false,
          Bool.false_eq_true, if_false]
        rw [ih2, normFound_cons_ws hb]
      · simp only [normLoop, hb, if_true, Bool.not_false, Bool.and_true, if_true]
        rw [ih2]
        simp [normAfterChar, startsWS, hb, normFound_cons_ws hb]
    | false =>
      have key : b :: normLoop rest true false = normFound (b :: rest) := by
        rw [ih3, normFound_cons_char hb]
      refine ⟨?_, ?_, ?_⟩
      · simp only [normLoop, hb, Bool.false_eq_true, if_false]
        exact key
      · simp only [normLoop, hb, Bool.false_eq_true, if_false]
        exact key
      · simp only [normLoop, hb, Bool.false_eq_true, if_false]
        rw [key]
        simp [normAfterChar, startsWS, hb]

lemma firstTok_not_ws : ∀ (l : List Nat), ∀ x ∈ firstTok l, isWS x = false := by
  intro l
  induction l with
  | nil => simp [firstTok]
  | cons b r ih =>
    intro x hx
    cases hb : isWS b with
    | true => simp [firstTok, hb] at hx
    | false =>
      simp only [firstTok, hb, Bool.false_eq_true, if_false] at hx
      rcases List.mem_cons.mp hx with rfl | hx'
      · exact hb
      · exact ih x hx'

lemma tokens_wf_aux : ∀ (n : Nat) (l : List Nat), l.length ≤ n →
    ∀ t ∈ tokens l, t ≠ [] ∧ ∀ x ∈ t, isWS x = false := by
  intro n
  induction n with
  | zero =>
    intro l hl t ht
    have : l = [] := List.length_eq_zero.mp (Nat.le_zero.mp hl)
    subst this
    simp [tokens_nil] at ht
  | succ n ih =>
    intro l hl t ht
    cases l with
    | nil => simp [tokens_nil] at ht
    | cons b rest =>
      simp only [List.length_cons, Nat.succ_le_succ_iff] at hl
      cases hb : isWS b with
      | true =>
        rw [tokens_cons_ws hb] at ht
        exact ih rest hl t ht
      | false =>
        rw [tokens_cons_char hb] at ht
        rcases List.mem_cons.mp ht with rfl | ht'
        · refine ⟨by simp, ?_⟩
          intro x hx
          rcases List.mem_cons.mp hx with rfl | hx'
          · exact hb
          · exact firstTok_not_ws rest x hx'
        · exact ih (dropTok rest) (Nat.le_trans (dropTok_length_le rest) hl) t ht'

lemma tokens_wf (l : List Nat) : ∀ t ∈ tokens l, t ≠ [] ∧ ∀ x ∈ t, isWS x = false :=
  tokens_wf_aux l.length l (Nat.le_refl _)

lemma joinWS_getLast_not_ws : ∀ (ts : List (List Nat)),
    (∀ t ∈ ts, t ≠ [] ∧ ∀ x ∈ t, isWS x = false) → ts ≠ [] →
    ∃ x, (joinWS ts).getLast? = some x ∧ isWS x = false := by
  intro ts
  induction ts with
  | nil => simp
  | cons t ts ih =>
    intro hwf _
    cases ts with
    | nil =>
      obtain ⟨hne, hall⟩ := hwf t (by simp)
      refine ⟨t.getLast hne, ?_, hall _ (List.getLast_mem hne)⟩
      have hj : joinWS [t] = t := by simp [joinWS, joinRest]
      rw [hj, List.getLast?_eq_getLast t hne]
    | cons u ts' =>
      obtain ⟨x, hx1, hx2⟩ := ih (fun v hv => hwf v (by simp [hv])) (by simp)
      refine ⟨x, ?_, hx2⟩
      rw [joinWS_cons_cons]
      have hne : joinWS (u :: ts') ≠ [] := by
        obtain ⟨hu, _⟩ := hwf u (by simp)
        simp only [joinWS]
        intro hcontra
        exact hu (List.append_eq_nil.mp hcontra).1
      rw [List.getLast?_append_of_ne_nil t (by simp), ← hx1]
      cases hj : joinWS (u :: ts') with
      | nil => exact absurd hj hne
      | cons y ys => rw [List.getLast?_cons_cons]

lemma normalize_space_def (bytes : List Nat) : normalize_space bytes =
    if (normLoop bytes false false).getLast? = some 32
    then (normLoop bytes false false).dropLast else normLoop bytes false false := rfl

lemma normalize_space_eq (l : List Nat) : normalize_space l = joinWS (tokens l) := by
  rw [normalize_space_def, (normLoop_spec l).1]
  unfold normFound trailMark
  by_cases htk : tokens l = []
  · simp [htk, joinWS]
  · by_cases he : endsWS l = true
    · rw [if_neg htk, if_pos he, List.getLast?_concat]
      simp [List.dropLast_concat]
    · have he' : endsWS l = false := by
        cases h : endsWS l
        · rfl
        · exact absurd h he
      rw [if_neg htk, he']
      simp only [Bool.false_eq_true, if_false, List.append_nil]
      obtain ⟨x, hx1, hx2⟩ := joinWS_getLast_not_ws (tokens l) (tokens_wf l) htk
      rw [hx1]
      have hx3 : x ≠ 32 := by
        intro h
        subst h
        simp [isWS] at hx2
      simp [hx3]

lemma firstTok_all_char {t : List Nat} (h : ∀ x ∈ t, isWS x = false) :
    firstTok t = t ∧ dropTok t = [] := by
  induction t with
  | nil => simp [firstTok, dropTok]
  | cons b r ih =>
    have hb : isWS b = false := h b (by simp)
    have ih' := ih (fun x hx => h x (by simp [hx]))
    simp [firstTok, dropTok, hb, ih'.1, ih'.2]

lemma firstTok_append_sep {t : List Nat} (l : List Nat) (h : ∀ x ∈ t, isWS x = false) :
    firstTok (t ++ 32 :: l) = t ∧ dropTok (t ++ 32 :: l) = 32 :: l := by
  induction t with
  | nil => simp [firstTok, dropTok, isWS]
  | cons b r ih =>
    have hb : isWS b = false := h b (by simp)
    have ih' := ih (fun x hx => h x (by simp [hx]))
    simp [firstTok, dropTok, hb, ih'.1, ih'.2]

lemma tokens_joinWS : ∀ ts : List (List Nat),
    (∀ t ∈ ts, t ≠ [] ∧ ∀ x ∈ t, isWS x = false) → tokens (joinWS ts) = ts := by
  intro ts
  induction ts with
  | nil => simp [joinWS, tokens_nil]
  | cons t ts ih =>
    intro hwf
    obtain ⟨hne, hall⟩ := hwf t (by simp)
    cases ts with
    | nil =>
      have hj : joinWS [t] = t := by simp [joinWS, joinRest]
      rw [hj]
      cases t with
      | nil => exact absurd rfl hne
      | cons b tb =>
        have hb : isWS b = false := hall b (by simp)
        have htb := firstTok_all_char (t := tb) (fun x hx => hall x (by simp [hx]))
        rw [tokens_cons_char hb, htb.1, htb.2, tokens_nil]
    | cons u ts' =>
      rw [joinWS_cons_cons]
      cases t with
      | nil => exact absurd rfl hne
      | cons b tb =>
        have hb : isWS b = false := hall b (by simp)
        have htb := firstTok_append_sep (t := tb) (joinWS (u :: ts'))
          (fun x hx => hall x (by simp [hx]))
        rw [List.cons_append, tokens_cons_char hb, htb.1, htb.2,
          tokens_cons_ws (by simp [isWS] : isWS 32 = true),
          ih (fun v hv => hwf v (by simp [hv]))]

/-! ## Claims C6 and C7: the space normalizer -/

/-- C6.  `normalize_space` produces the input with every whitespace run that
follows at least one non-whitespace byte collapsed to a single space, leading
and trailing whitespace runs dropped entirely, and all other bytes kept in
order — i.e. the non-whitespace runs joined by single spaces
(`normalize_space_spec`); in particular `normalize(b"  a   b\t\nc  ")` is
`b"a b c"` and `normalize(b"   ")` is `b""`. -/
theorem c6_normalize_space_correct :
    (∀ x : List Nat, normalize_space x = normalize_space_spec x) ∧
    normalize_space (ascii "  a   b\t\nc  ") = ascii "a b c" ∧
    normalize_space (ascii "   ") = ascii "" := by
  refine ⟨fun x => normalize_space_eq x, by decide, by decide⟩

/-- C7.  `normalize_space` is idempotent: normalizing an already-normalized
byte sequence returns it unchanged. -/
theorem c7_normalize_space_idempotent :
    ∀ x : List Nat, normalize_space (normalize_space x) = normalize_space x := by
  intro x
  rw [normalize_space_eq, normalize_space_eq, tokens_joinWS (tokens x) (tokens_wf x)]

/-! ## Claim C3: the encoding sniffer -/

/-- C3.  The sniffer's seven rules, checked in order against the leading raw
bytes: `3C 3F` gives no encoding and consumes nothing; `FE FF` gives UTF-16 BE
consuming exactly 2 bytes; `FF FE` gives UTF-16 LE consuming exactly 2;
`EF BB BF` gives no encoding consuming exactly 3; `00 3C 00 3F` gives
UTF-16 BE consuming nothing; `3C 00 3F 00` gives UTF-16 LE consuming
nothing; any other stream gives no encoding and consumes nothing. -/
theorem c3_sniff_encoding_rules :
    (∀ rest : List Nat, sniff_encoding (0x3c :: 0x3f :: rest) = (none, 0)) ∧
    (∀ rest : List Nat, sniff_encoding (0xfe :: 0xff :: rest) = (some Encoding.utf16be, 2)) ∧
    (∀ rest : List Nat, sniff_encoding (0xff :: 0xfe :: rest) = (some Encoding.utf16le, 2)) ∧
    (∀ rest : List Nat, sniff_encoding (0xef :: 0xbb :: 0xbf :: rest) = (none, 3)) ∧
    (∀ rest : List Nat,
      sniff_encoding (0x00 :: 0x3c :: 0x00 :: 0x3f :: rest) = (some Encoding.utf16be, 0)) ∧
    (∀ rest : List Nat,
      sniff_encoding (0x3c :: 0x00 :: 0x3f :: 0x00 :: rest) = (some Encoding.utf16le, 0)) ∧
    (∀ bytes : List Nat,
      bytes.take 2 ≠ [0x3c, 0x3f] →
      bytes.take 2 ≠ [0xfe, 0xff] →
      bytes.take 2 ≠ [0xff, 0xfe] →
      bytes.take 3 ≠ [0xef, 0xbb, 0xbf] →
      bytes.take 4 ≠ [0x00, 0x3c, 0x00, 0x3f] →
      bytes.take 4 ≠ [0x3c, 0x00, 0x3f, 0x00] →
      sniff_encoding bytes = (none, 0)) := by
  refine ⟨fun rest => rfl, fun rest => rfl, fun rest => rfl, fun rest => rfl,
    fun rest => rfl, fun rest => rfl, ?_⟩
  intro bytes h1 h2 h3 h4 h5 h6
  unfold sniff_encoding
  split <;> simp_all

/-- Witness for C3: the default rule applied at a concrete stream. -/
theorem c3_sniff_encoding_rules_witness : sniff_encoding [0x41, 0x42] = (none, 0) :=
  c3_sniff_encoding_rules.2.2.2.2.2.2 [0x41, 0x42] (by decide) (by decide) (by decide)
    (by decide) (by decide) (by decide)

/-! ## Claim C2: the decoder switch is frame-exact -/

/-- C2.  `set_encoding`, with any encoding or with none, replaces only the
active decoder (a fresh one without BOM handling) and clears the `done` flag;
the undecoded buffer, its read cursor and fill level, the carry-over region,
and the decoded buffer with its cursor and fill level are all unchanged, so
the window of buffered-but-undecoded bytes is preserved exactly. -/
theorem c2_set_encoding_frame :
    ∀ (r : DecodeReader) (enc : Option Encoding),
      (r.set_encoding enc).decoder
          = enc.map (fun e => { encoding := e, bomHandling := false }) ∧
      (r.set_encoding enc).done = false ∧
      (r.set_encoding enc).undecoded = r.undecoded ∧
      (r.set_encoding enc).undecoded_pos = r.undecoded_pos ∧
      (r.set_encoding enc).undecoded_cap = r.undecoded_cap ∧
      (r.set_encoding enc).remaining = r.remaining ∧
      (r.set_encoding enc).decoded = r.decoded ∧
      (r.set_encoding enc).decoded_pos = r.decoded_pos ∧
      (r.set_encoding enc).decoded_cap = r.decoded_cap ∧
      (r.set_encoding enc).undecodedWindow = r.undecodedWindow :=
  fun _ _ => ⟨rfl, rfl, rfl, rfl, rfl, rfl, rfl, rfl, rfl, rfl⟩

/-! ## Claims C1 and C10: the declaration-driven encoding switch -/

/-- C1.  When the declaration's encoding resolves to a different encoding
than the initially configured one (sniffed or caller override), the decode
buffer is reconfigured and the event parser rebuilt with the declared
encoding — with exactly one exception: a declaration resolving to
little-endian UTF-16 (the default for the generic "UTF-16" label) against an
initial big-endian UTF-16 performs no switch and keeps decoding big-endian. -/
theorem c1_decl_encoding_switch :
    (∀ (sniffed init selfEnc : Option Encoding) (overrideLabel declLabel : Option (List Nat)),
      init_encoding sniffed overrideLabel = Except.ok init →
      decl_encoding declLabel = Except.ok selfEnc →
      effectiveEncoding selfEnc ≠ effectiveEncoding init →
      (selfEnc = some Encoding.utf16le ∧ init = some Encoding.utf16be →
          parse_start_encoding sniffed overrideLabel declLabel = Except.ok (init, false)) ∧
      (¬(selfEnc = some Encoding.utf16le ∧ init = some Encoding.utf16be) →
          parse_start_encoding sniffed overrideLabel declLabel = Except.ok (selfEnc, true))) ∧
    for_label (ascii "UTF-16") = some Encoding.utf16le := by
  constructor
  · intro sniffed init selfEnc overrideLabel declLabel h1 h2 heff
    have hpse : parse_start_encoding sniffed overrideLabel declLabel =
        if should_switch selfEnc init then Except.ok (selfEnc, true)
        else Except.ok (init, false) := by
      unfold parse_start_encoding
      rw [h1, h2]
    constructor
    · rintro ⟨he1, he2⟩
      subst he1
      subst he2
      rw [hpse]
      rfl
    · intro hexc
      have hneq : selfEnc ≠ init := fun h => heff (by rw [h])
      have hb1 : (selfEnc != init) = true := bne_iff_ne.mpr hneq
      have hb2 : (selfEnc == some Encoding.utf16le && init == some Encoding.utf16be) = false := by
        by_cases hc : selfEnc = some Encoding.utf16le
        · have hi : init ≠ some Encoding.utf16be := fun hi => hexc ⟨hc, hi⟩
          simp [hc, hi]
        · simp [hc]
      have hsw : should_switch selfEnc init = true := by
        unfold should_switch
        rw [hb1, hb2]
        rfl
      rw [hpse, hsw]
      rfl
  · decide

/-- Witness for C1: a BE-sniffed stream whose declaration label "UTF-16"
resolves to little-endian UTF-16 triggers no switch. -/
theorem c1_decl_encoding_switch_witness :
    init_encoding (some Encoding.utf16be) none = Except.ok (some Encoding.utf16be) ∧
    decl_encoding (some (ascii "UTF-16")) = Except.ok (some Encoding.utf16le) ∧
    effectiveEncoding (some Encoding.utf16le) ≠ effectiveEncoding (some Encoding.utf16be) ∧
    parse_start_encoding (some Encoding.utf16be) none (some (ascii "UTF-16"))
      = Except.ok (some Encoding.utf16be, false) := by
  refine ⟨rfl, rfl, by decide, ?_⟩
  exact (c1_decl_encoding_switch.1 (some Encoding.utf16be) (some Encoding.utf16be)
    (some Encoding.utf16le) none (some (ascii "UTF-16")) rfl rfl (by decide)).1
    ⟨rfl, rfl⟩

/-- C10.  The switch suppression applies to every declared label resolving to
little-endian UTF-16 — in particular the explicit "UTF-16LE" label, not only
the generic "UTF-16" — when the initial encoding is big-endian UTF-16. -/
theorem c10_utf16le_label_suppression :
    (∀ declLabel : List Nat,
      decl_encoding (some declLabel) = Except.ok (some Encoding.utf16le) →
      parse_start_encoding (some Encoding.utf16be) none (some declLabel)
        = Except.ok (some Encoding.utf16be, false)) ∧
    decl_encoding (some (ascii "UTF-16LE")) = Except.ok (some Encoding.utf16le) := by
  constructor
  · intro declLabel h
    unfold parse_start_encoding
    rw [h]
    rfl
  · rfl

/-- Witness for C10: the explicit "UTF-16LE" label against a BE-sniffed
stream performs no switch. -/
theorem c10_utf16le_label_suppression_witness :
    parse_start_encoding (some Encoding.utf16be) none (some (ascii "UTF-16LE"))
      = Except.ok (some Encoding.utf16be, false) :=
  c10_utf16le_label_suppression.1 (ascii "UTF-16LE") c10_utf16le_label_suppression.2

/-! ## Claim C8: the standalone attribute -/

lemma valid_utf8_ascii : ∀ (bytes : List Nat), (∀ b ∈ bytes, b ≤ 0x7f) →
    valid_utf8 bytes = true := by
  intro bytes
  simp only [valid_utf8]
  induction bytes with
  | nil => intro _; rfl
  | cons b rest ih =>
    intro h
    have hb : b ≤ 0x7f := h b (by simp)
    simp only [utf8Aux, eq_self_iff_true, if_true, if_pos hb]
    exact ih (fun x hx => h x (by simp [hx]))

lemma to_lowercase_ascii_bound {bytes target : List Nat}
    (h : to_lowercase bytes = target) (ht : ∀ t ∈ target, t ≤ 0x7f) :
    ∀ b ∈ bytes, b ≤ 0x7f := by
  intro b hb
  have hmem : (if 65 ≤ b ∧ b ≤ 90 then b + 32 else b) ∈ target := by
    rw [← h]
    exact List.mem_map_of_mem _ hb
  have hle := ht _ hmem
  by_cases hc : 65 ≤ b ∧ b ≤ 90
  · omega
  · rw [if_neg hc] at hle
    exact hle

/-- Counterexample to C8 as stated: the standalone value `FF` is "any other
value" (its case-insensitive form is neither "yes" nor "no"), yet the parse
fails with the invalid-text-encoding conversion error of §7 — raised by
`std::str::from_utf8` at src/parser.rs 191 — and not with the
malformed-declaration error the claim names. -/
theorem c8_standalone_validation_counterexample :
    handle_decl (initial_state ReadOptions.default) (ascii "1.0") none (some [0xff])
      = Except.error Error.conversionFailure ∧
    handle_decl (initial_state ReadOptions.default) (ascii "1.0") none (some [0xff])
      ≠ Except.error (Error.malformedXML
          "Standalone Document Declaration has non boolean value") := by
  have h1 : handle_decl (initial_state ReadOptions.default) (ascii "1.0") none
      (some [0xff]) = Except.error Error.conversionFailure := rfl
  refine ⟨h1, ?_⟩
  rw [h1]
  intro hcontra
  injection hcontra with h2
  exact Error.noConfusion h2

/-- C8 (amended).  With a valid-UTF-8 version and the declared encoding
resolving: a standalone value whose case-insensitive form is "yes" sets the
document's standalone flag to true, a "no" sets it to false, any other value
that is valid UTF-8 text fails the parse with the malformed-declaration
error, a value that is not valid UTF-8 fails it with the
invalid-text-encoding conversion error instead, and an absent attribute
leaves the default `false`. -/
theorem c8_standalone_validation :
    ∀ (st : ParserState) (version : List Nat) (encLabel : Option (List Nat))
      (enc : Option Encoding),
      valid_utf8 version = true →
      decl_encoding encLabel = Except.ok enc →
      (∀ bytes, to_lowercase bytes = ascii "yes" →
          ∃ st', handle_decl st version encLabel (some bytes) = Except.ok st' ∧
            st'.document.standalone = true) ∧
      (∀ bytes, to_lowercase bytes = ascii "no" →
          ∃ st', handle_decl st version encLabel (some bytes) = Except.ok st' ∧
            st'.document.standalone = false) ∧
      (∀ bytes, valid_utf8 bytes = true →
          to_lowercase bytes ≠ ascii "yes" → to_lowercase bytes ≠ ascii "no" →
          handle_decl st version encLabel (some bytes) =
            Except.error (Error.malformedXML
              "Standalone Document Declaration has non boolean value")) ∧
      (∀ bytes, valid_utf8 bytes = false →
          handle_decl st version encLabel (some bytes) =
            Except.error Error.conversionFailure) ∧
      (∃ st', handle_decl st version encLabel none = Except.ok st' ∧
          st'.document.standalone = false) := by
  intro st version encLabel enc hver h
  have hunfold : ∀ sa, handle_decl st version encLabel sa =
      match decl_encoding encLabel with
      | Except.error e => Except.error e
      | Except.ok enc' =>
        match parse_standalone sa with
        | Except.error e => Except.error e
        | Except.ok standalone =>
          Except.ok { st with
            document := { st.document with version := version, standalone := standalone }
            encoding := enc' } := by
    intro sa
    unfold handle_decl
    rw [if_pos hver]
  refine ⟨?_, ?_, ?_, ?_, ?_⟩
  · intro bytes hyes
    have hv : valid_utf8 bytes = true :=
      valid_utf8_ascii bytes (to_lowercase_ascii_bound hyes (by decide))
    have hp : parse_standalone (some bytes) = Except.ok true := by
      simp only [parse_standalone, hv, eq_self_iff_true, if_true]
      rw [hyes, if_pos rfl]
    refine ⟨{ st with
        document := { st.document with version := version, standalone := true }
        encoding := enc }, ?_, rfl⟩
    rw [hunfold, h, hp]
  · intro bytes hno
    have hne : ascii "no" ≠ ascii "yes" := by decide
    have hv : valid_utf8 bytes = true :=
      valid_utf8_ascii bytes (to_lowercase_ascii_bound hno (by decide))
    have hp : parse_standalone (some bytes) = Except.ok false := by
      simp only [parse_standalone, hv, eq_self_iff_true, if_true]
      rw [hno, if_neg hne, if_pos rfl]
    refine ⟨{ st with
        document := { st.document with version := version, standalone := false }
        encoding := enc }, ?_, rfl⟩
    rw [hunfold, h, hp]
  · intro bytes hv hyes hno
    have hp : parse_standalone (some bytes) =
        Except.error (Error.malformedXML
          "Standalone Document Declaration has non boolean value") := by
      simp only [parse_standalone, hv, eq_self_iff_true, if_true]
      rw [if_neg hyes, if_neg hno]
    rw [hunfold, h, hp]
  · intro bytes hv
    have hp : parse_standalone (some bytes) = Except.error Error.conversionFailure := by
      simp only [parse_standalone, hv, Bool.false_eq_true, if_false]
    rw [hunfold, h, hp]
  · refine ⟨{ st with
        document := { st.document with version := version, standalone := false }
        encoding := enc }, ?_, rfl⟩
    rw [hunfold, h]
    rfl

/-- Witness for C8: "YES" sets the flag, "maybe" is rejected as malformed,
and the invalid-UTF-8 value `FF` is rejected with the conversion error. -/
theorem c8_standalone_validation_witness :
    valid_utf8 (ascii "1.0") = true ∧
    (∃ st', handle_decl (initial_state ReadOptions.default) (ascii "1.0") none
        (some (ascii "YES")) = Except.ok st' ∧ st'.document.standalone = true) ∧
    handle_decl (initial_state ReadOptions.default) (ascii "1.0") none
        (some (ascii "maybe")) =
      Except.error (Error.malformedXML
        "Standalone Document Declaration has non boolean value") ∧
    handle_decl (initial_state ReadOptions.default) (ascii "1.0") none (some [0xff])
      = Except.error Error.conversionFailure := by
  have h := c8_standalone_validation (initial_state ReadOptions.default) (ascii "1.0")
    none none (by decide) rfl
  exact ⟨by decide, h.1 (ascii "YES") (by decide),
    h.2.2.1 (ascii "maybe") (by decide) (by decide) (by decide),
    h.2.2.2.1 [0xff] (by decide)⟩

/-! ## Claim C5: attribute and namespace routing -/

lemma lookupA_insertA_self : ∀ (m : List (List Nat × List Nat)) (k v : List Nat),
    lookupA (insertA m k v) k = some v := by
  intro m k v
  induction m with
  | nil => simp [insertA, lookupA]
  | cons p rest ih =>
    obtain ⟨k', v'⟩ := p
    by_cases hk : k' = k
    · simp [insertA, hk, lookupA]
    · simp [insertA, hk, lookupA, ih]

lemma lookupA_insertA_ne : ∀ (m : List (List Nat × List Nat)) (k v k' : List Nat),
    k ≠ k' → lookupA (insertA m k v) k' = lookupA m k' := by
  intro m k v k' h
  induction m with
  | nil => simp [insertA, lookupA, h]
  | cons p rest ih =>
    obtain ⟨k2, v2⟩ := p
    by_cases hk : k2 = k
    · subst hk
      simp [insertA, lookupA, h]
    · simp only [insertA, if_neg hk, lookupA]
      by_cases hk2 : k2 = k'
      · simp [hk2]
      · simp [hk2, ih]

lemma getLast?_cons_of_some {α : Type} {l : List α} {x w : α} (h : l.getLast? = some w) :
    (x :: l).getLast? = some w := by
  cases l with
  | nil => simp at h
  | cons y ys =>
    rw [List.getLast?_cons_cons]
    exact h

lemma getLast?_none_nil {α : Type} {l : List α} (h : l.getLast? = none) : l = [] := by
  cases l with
  | nil => rfl
  | cons y ys =>
    have hs : (y :: ys).getLast?.isSome = true := List.getLast?_isSome.mpr (by simp)
    rw [h] at hs
    simp at hs

lemma lastValueOf_cons_ne {key value k : List Nat} (rest : List (List Nat × List Nat))
    (h : key ≠ k) : lastValueOf ((key, value) :: rest) k = lastValueOf rest k := by
  unfold lastValueOf
  simp [List.filter_cons, h]

lemma lastValueOf_cons_self {key value k : List Nat} (rest : List (List Nat × List Nat))
    (h : key = k) :
    lastValueOf ((key, value) :: rest) k =
      match lastValueOf rest k with
      | some w => some w
      | none => some (processedValue value) := by
  unfold lastValueOf
  simp only [List.filter_cons, h, beq_self_eq_true, if_true, List.map_cons]
  cases hm : ((rest.filter (fun a => a.1 == k)).map (fun a => processedValue a.2)).getLast? with
  | some w => rw [getLast?_cons_of_some hm]
  | none =>
    rw [getLast?_none_nil hm]
    rfl

lemma lastNsValueOf_cons_ne {key value p : List Nat} (rest : List (List Nat × List Nat))
    (h : nsKeyOf key ≠ some p) :
    lastNsValueOf ((key, value) :: rest) p = lastNsValueOf rest p := by
  unfold lastNsValueOf
  simp [List.filter_cons, h]

lemma lastNsValueOf_cons_self {key value p : List Nat} (rest : List (List Nat × List Nat))
    (h : nsKeyOf key = some p) :
    lastNsValueOf ((key, value) :: rest) p =
      match lastNsValueOf rest p with
      | some w => some w
      | none => some (processedValue value) := by
  unfold lastNsValueOf
  simp only [List.filter_cons, h, beq_self_eq_true, if_true, List.map_cons]
  cases hm : ((rest.filter (fun a => nsKeyOf a.1 == some p)).map
      (fun a => processedValue a.2)).getLast? with
  | some w => rw [getLast?_cons_of_some hm]
  | none =>
    rw [getLast?_none_nil hm]
    rfl

lemma attrLoop_attributes_plain : ∀ (attrs nsAcc atAcc : List (List Nat × List Nat))
    (k : List Nat), nsKeyOf k = none →
    lookupA (attrLoop attrs nsAcc atAcc).2 k =
      match lastValueOf attrs k with
      | some v => some v
      | none => lookupA atAcc k := by
  intro attrs
  induction attrs with
  | nil =>
    intro nsAcc atAcc k _
    simp [attrLoop, lastValueOf]
  | cons a rest ih =>
    intro nsAcc atAcc k hk
    obtain ⟨key, value⟩ := a
    by_cases hx : key = xmlnsKey
    · subst hx
      have hkey : xmlnsKey ≠ k := by
        intro hcontra
        rw [← hcontra] at hk
        simp [nsKeyOf] at hk
      simp only [attrLoop, eq_self_iff_true, if_true]
      rw [ih _ _ k hk, lastValueOf_cons_ne rest hkey]
    · cases hs : stripXmlns key with
      | some p =>
        have hkey : key ≠ k := by
          intro hcontra
          rw [← hcontra] at hk
          simp [nsKeyOf, hx, hs] at hk
        simp only [attrLoop, hx, if_false, hs]
        rw [ih _ _ k hk, lastValueOf_cons_ne rest hkey]
      | none =>
        simp only [attrLoop, hx, if_false, hs]
        by_cases hkey : key = k
        · subst hkey
          rw [ih _ _ key hk, lastValueOf_cons_self rest rfl]
          cases lastValueOf rest key with
          | some w => rfl
          | none =>
            simp only []
            rw [lookupA_insertA_self]
            rfl
        · rw [ih _ _ k hk, lastValueOf_cons_ne rest hkey,
            lookupA_insertA_ne atAcc key _ k hkey]

lemma attrLoop_attributes_nskey : ∀ (attrs nsAcc atAcc : List (List Nat × List Nat))
    (k : List Nat), nsKeyOf k ≠ none →
    lookupA (attrLoop attrs nsAcc atAcc).2 k = lookupA atAcc k := by
  intro attrs
  induction attrs with
  | nil =>
    intro nsAcc atAcc k _
    simp [attrLoop]
  | cons a rest ih =>
    intro nsAcc atAcc k hk
    obtain ⟨key, value⟩ := a
    by_cases hx : key = xmlnsKey
    · simp only [attrLoop, hx, if_pos rfl]
      exact ih _ _ k hk
    · cases hs : stripXmlns key with
      | some p =>
        simp only [attrLoop, hx, if_false, hs]
        exact ih _ _ k hk
      | none =>
        simp only [attrLoop, hx, if_false, hs]
        have hkey : key ≠ k := by
          intro hcontra
          subst hcontra
          exact hk (by simp [nsKeyOf, hx, hs])
        rw [ih _ _ k hk, lookupA_insertA_ne atAcc key _ k hkey]

lemma attrLoop_namespaces : ∀ (attrs nsAcc atAcc : List (List Nat × List Nat))
    (p : List Nat),
    lookupA (attrLoop attrs nsAcc atAcc).1 p =
      match lastNsValueOf attrs p with
      | some v => some v
      | none => lookupA nsAcc p := by
  intro attrs
  induction attrs with
  | nil =>
    intro nsAcc atAcc p
    simp [attrLoop, lastNsValueOf]
  | cons a rest ih =>
    intro nsAcc atAcc p
    obtain ⟨key, value⟩ := a
    by_cases hx : key = xmlnsKey
    · subst hx
      have hns : nsKeyOf xmlnsKey = some [] := by simp [nsKeyOf]
      simp only [attrLoop, eq_self_iff_true, if_true]
      by_cases hp : p = []
      · subst hp
        rw [ih _ _ [], lastNsValueOf_cons_self rest hns]
        cases lastNsValueOf rest [] with
        | some w => rfl
        | none =>
          simp only []
          rw [lookupA_insertA_self]
          rfl
      · have hne : nsKeyOf xmlnsKey ≠ some p := by
          rw [hns]
          intro hcontra
          exact hp (by injection hcontra with h1; exact h1.symm)
        rw [ih _ _ p, lastNsValueOf_cons_ne rest hne,
          lookupA_insertA_ne nsAcc [] _ p (fun h => hp h.symm)]
    · cases hs : stripXmlns key with
      | some q =>
        have hns : nsKeyOf key = some q := by simp [nsKeyOf, hx, hs]
        simp only [attrLoop, hx, if_false, hs]
        by_cases hp : p = q
        · subst hp
          rw [ih _ _ p, lastNsValueOf_cons_self rest hns]
          cases lastNsValueOf rest p with
          | some w => rfl
          | none =>
            simp only []
            rw [lookupA_insertA_self]
            rfl
        · have hne : nsKeyOf key ≠ some p := by
            rw [hns]
            intro hcontra
            exact hp (by injection hcontra with h1; exact h1.symm)
          rw [ih _ _ p, lastNsValueOf_cons_ne rest hne,
            lookupA_insertA_ne nsAcc q _ p (fun h => hp h.symm)]
      | none =>
        have hne : nsKeyOf key ≠ some p := by simp [nsKeyOf, hx, hs]
        simp only [attrLoop, hx, if_false, hs]
        rw [ih _ _ p, lastNsValueOf_cons_ne rest hne]

lemma push_child_arena_other (doc : Document) (parent e : Nat) (n : Node)
    (h : parent ≠ e) : (push_child doc parent n).arena[e]? = doc.arena[e]? := by
  unfold push_child setElem
  cases hpar : doc.arena[parent]? with
  | none => rfl
  | some pd => simp [List.getElem?_set_ne h]

lemma create_element_result (doc : Document) (parent : Nat) (name : List Nat)
    (attrs : List (List Nat × List Nat)) (hp : parent < doc.arena.length) :
    (create_element doc parent name attrs).2 = doc.arena.length ∧
    (create_element doc parent name attrs).1.arena[doc.arena.length]? =
      some { full_name := name
             children := []
             attributes := (attrLoop attrs [] []).2
             namespace_decls := (attrLoop attrs [] []).1 } := by
  refine ⟨rfl, ?_⟩
  have hpar_ne : parent ≠ doc.arena.length := Nat.ne_of_lt hp
  show (push_child
      (setElem (Element.new doc name).1 (Element.new doc name).2
        (fun ed => { ed with attributes := (attrLoop attrs [] []).2
                             namespace_decls := (attrLoop attrs [] []).1 }))
      parent (Node.element (Element.new doc name).2)).arena[doc.arena.length]? = _
  rw [push_child_arena_other _ parent _ _ hpar_ne]
  have hgl : (Element.new doc name).1.arena[(Element.new doc name).2]? =
      some { full_name := name, children := [], attributes := [], namespace_decls := [] } := by
    simp only [Element.new]
    exact List.getElem?_concat_length _ _
  unfold setElem
  rw [hgl]
  simp only [Element.new]
  rw [List.getElem?_set_self (by simp)]

lemma create_element_observers (doc : Document) (parent : Nat) (name : List Nat)
    (attrs : List (List Nat × List Nat)) (hp : parent < doc.arena.length) :
    attributesOf (create_element doc parent name attrs).1
        (create_element doc parent name attrs).2 = (attrLoop attrs [] []).2 ∧
    namespacesOf (create_element doc parent name attrs).1
        (create_element doc parent name attrs).2 = (attrLoop attrs [] []).1 ∧
    childrenOf (create_element doc parent name attrs).1
        (create_element doc parent name attrs).2 = [] := by
  obtain ⟨h2, h1⟩ := create_element_result doc parent name attrs hp
  rw [h2]
  unfold attributesOf namespacesOf childrenOf
  rw [h1]
  exact ⟨rfl, rfl, rfl⟩

/-- C5.  For every start or empty tag, an attribute key exactly "xmlns" is
routed into the element's namespace map under the empty prefix, a key
starting "xmlns:" under the remainder of the key, and neither appears in the
attribute map; every other attribute lands in the attribute map with the last
occurrence winning on a duplicate key — checked on the spec's concrete
example as well. -/
theorem c5_attribute_namespace_routing :
    (∀ (doc : Document) (parent : Nat) (name : List Nat)
        (attrs : List (List Nat × List Nat)) (k : List Nat),
      parent < doc.arena.length →
      (nsKeyOf k = none →
        lookupA (attributesOf (create_element doc parent name attrs).1
          (create_element doc parent name attrs).2) k = lastValueOf attrs k) ∧
      (nsKeyOf k ≠ none →
        lookupA (attributesOf (create_element doc parent name attrs).1
          (create_element doc parent name attrs).2) k = none) ∧
      lookupA (namespacesOf (create_element doc parent name attrs).1
        (create_element doc parent name attrs).2) k = lastNsValueOf attrs k) ∧
    (lookupA (namespacesOf (create_element Document.new 0 (ascii "a")
        [(ascii "xmlns", ascii "http://x"), (ascii "xmlns:p", ascii "http://y"),
         (ascii "q", ascii "1")]).1
        (create_element Document.new 0 (ascii "a")
        [(ascii "xmlns", ascii "http://x"), (ascii "xmlns:p", ascii "http://y"),
         (ascii "q", ascii "1")]).2) (ascii "") = some (ascii "http://x") ∧
     lookupA (namespacesOf (create_element Document.new 0 (ascii "a")
        [(ascii "xmlns", ascii "http://x"), (ascii "xmlns:p", ascii "http://y"),
         (ascii "q", ascii "1")]).1
        (create_element Document.new 0 (ascii "a")
        [(ascii "xmlns", ascii "http://x"), (ascii "xmlns:p", ascii "http://y"),
         (ascii "q", ascii "1")]).2) (ascii "p") = some (ascii "http://y") ∧
     attributesOf (create_element Document.new 0 (ascii "a")
        [(ascii "xmlns", ascii "http://x"), (ascii "xmlns:p", ascii "http://y"),
         (ascii "q", ascii "1")]).1
        (create_element Document.new 0 (ascii "a")
        [(ascii "xmlns", ascii "http://x"), (ascii "xmlns:p", ascii "http://y"),
         (ascii "q", ascii "1")]).2 = [(ascii "q", ascii "1")]) := by
  constructor
  · intro doc parent name attrs k hp
    obtain ⟨hA, hN, _hC⟩ := create_element_observers doc parent name attrs hp
    refine ⟨?_, ?_, ?_⟩
    · intro hns
      rw [hA, attrLoop_attributes_plain attrs [] [] k hns]
      cases lastValueOf attrs k <;> rfl
    · intro hns
      rw [hA, attrLoop_attributes_nskey attrs [] [] k hns]
      rfl
    · rw [hN, attrLoop_namespaces attrs [] [] k]
      cases lastNsValueOf attrs k <;> rfl
  · exact ⟨by decide, by decide, by decide⟩

/-- Witness for C5: the routing facts applied at a concrete element. -/
theorem c5_attribute_namespace_routing_witness :
    0 < Document.new.arena.length ∧
    nsKeyOf (ascii "q") = none ∧
    lookupA (attributesOf (create_element Document.new 0 (ascii "a")
        [(ascii "q", ascii "1")]).1
      (create_element Document.new 0 (ascii "a") [(ascii "q", ascii "1")]).2) (ascii "q")
      = lastValueOf [(ascii "q", ascii "1")] (ascii "q") := by
  refine ⟨by decide, by decide, ?_⟩
  exact (c5_attribute_namespace_routing.1 Document.new 0 (ascii "a")
    [(ascii "q", ascii "1")] (ascii "q") (by decide)).1 (by decide)

/-! ## Claim C4: empty-text-node synthesis -/

lemma childrenOf_push_child_self (doc : Document) (e : Nat) (n : Node)
    (h : e < doc.arena.length) :
    childrenOf (push_child doc e n) e = childrenOf doc e ++ [n] := by
  unfold push_child setElem childrenOf
  rw [List.getElem?_eq_getElem h]
  rw [List.getElem?_set_self h]

lemma childrenOf_empty (doc : Document) (e : Nat) (h : e < doc.arena.length)
    (hc : has_children doc e = false) : childrenOf doc e = [] := by
  unfold has_children at hc
  unfold childrenOf
  rw [List.getElem?_eq_getElem h] at hc ⊢
  simp only [Bool.not_eq_false'] at hc
  simpa using hc

/-- C4.  An end-tag event with `empty_text_node` set whose popped element has
no children appends exactly one empty Text node as its only child; an
empty-tag event attaches the element with no children regardless of the
flag; with the flag unset an end tag never synthesizes a child — so
`<a></a>` and `<a/>` are distinguished exactly when `empty_text_node` is
true, as witnessed by the four concrete parses. -/
theorem c4_empty_text_node_distinction :
    (∀ (st : ParserState) (elem : Nat) (rest : List Nat),
      st.read_opts.empty_text_node = true →
      st.element_stack = elem :: rest →
      elem < st.document.arena.length →
      has_children st.document elem = false →
      handle_event st XEvent.endTag = StepResult.next false
        { st with document := push_child st.document elem (Node.text [])
                  element_stack := rest } ∧
      childrenOf (push_child st.document elem (Node.text [])) elem = [Node.text []]) ∧
    (∀ (st : ParserState) (elem : Nat) (rest : List Nat),
      st.read_opts.empty_text_node = true →
      st.element_stack = elem :: rest →
      has_children st.document elem = true →
      handle_event st XEvent.endTag = StepResult.next false
        { st with element_stack := rest }) ∧
    (∀ (st : ParserState) (elem : Nat) (rest : List Nat),
      st.read_opts.empty_text_node = false →
      st.element_stack = elem :: rest →
      handle_event st XEvent.endTag = StepResult.next false
        { st with element_stack := rest }) ∧
    (∀ (st : ParserState) (parent : Nat) (srest : List Nat)
        (name : List Nat) (attrs : List (List Nat × List Nat)),
      st.element_stack = parent :: srest →
      parent < st.document.arena.length →
      handle_event st (XEvent.emptyTag name attrs) = StepResult.next false
        { st with document := (create_element st.document parent name attrs).1 } ∧
      childrenOf (create_element st.document parent name attrs).1
        (create_element st.document parent name attrs).2 = []) ∧
    (∃ st', parse_content_events (initial_state ReadOptions.default)
        [XEvent.startTag (ascii "a") [], XEvent.endTag, XEvent.eof] = RunResult.done st' ∧
      childrenOf st'.document 1 = [Node.text []]) ∧
    (∃ st', parse_content_events (initial_state ReadOptions.default)
        [XEvent.emptyTag (ascii "a") [], XEvent.eof] = RunResult.done st' ∧
      childrenOf st'.document 1 = []) ∧
    (∃ st', parse_content_events
        (initial_state { ReadOptions.default with empty_text_node := false })
        [XEvent.startTag (ascii "a") [], XEvent.endTag, XEvent.eof] = RunResult.done st' ∧
      childrenOf st'.document 1 = []) ∧
    (∃ st', parse_content_events
        (initial_state { ReadOptions.default with empty_text_node := false })
        [XEvent.emptyTag (ascii "a") [], XEvent.eof] = RunResult.done st' ∧
      childrenOf st'.document 1 = []) := by
  refine ⟨?_, ?_, ?_, ?_, ⟨_, rfl, by decide⟩, ⟨_, rfl, by decide⟩,
    ⟨_, rfl, by decide⟩, ⟨_, rfl, by decide⟩⟩
  · intro st elem rest hflag hst hvalid hchild
    constructor
    · simp only [handle_event, hst, hflag, hchild, eq_self_iff_true, if_true,
        Bool.false_eq_true, if_false]
    · rw [childrenOf_push_child_self st.document elem _ hvalid,
        childrenOf_empty st.document elem hvalid hchild]
      rfl
  · intro st elem rest hflag hst hchild
    simp only [handle_event, hst, hflag, hchild, eq_self_iff_true, if_true]
  · intro st elem rest hflag hst
    simp only [handle_event, hst, hflag, Bool.false_eq_true, if_false]
  · intro st parent srest name attrs hst hvalid
    constructor
    · simp only [handle_event, hst]
    · exact (create_element_observers st.document parent name attrs hvalid).2.2

/-- Witness for C4: popping the container of a fresh document with the flag
set appends the empty text node. -/
theorem c4_empty_text_node_distinction_witness :
    ((initial_state ReadOptions.default).read_opts.empty_text_node = true ∧
     (initial_state ReadOptions.default).element_stack = 0 :: [] ∧
     0 < (initial_state ReadOptions.default).document.arena.length ∧
     has_children (initial_state ReadOptions.default).document 0 = false) ∧
    handle_event (initial_state ReadOptions.default) XEvent.endTag = StepResult.next false
      { initial_state ReadOptions.default with
        document := push_child (initial_state ReadOptions.default).document 0 (Node.text [])
        element_stack := [] } := by
  refine ⟨⟨rfl, rfl, by decide, by decide⟩, ?_⟩
  exact (c4_empty_text_node_distinction.1 (initial_state ReadOptions.default) 0 []
    rfl rfl (by decide) (by decide)).1

/-! ## Claim C9: the open-element stack never underflows -/

lemma endCount_cons_split (ev : XEvent) (l : List XEvent) :
    endCount (ev :: l) = endCount [ev] + endCount l := by
  simp [endCount, List.countP_cons, Nat.add_comm]

lemma startCount_cons_split (ev : XEvent) (l : List XEvent) :
    startCount (ev :: l) = startCount [ev] + startCount l := by
  simp [startCount, List.countP_cons, Nat.add_comm]

lemma handle_event_step (st : ParserState) (ev : XEvent) (top : Nat) (stail : List Nat)
    (hstack : st.element_stack = top :: stail) :
    (∃ e, handle_event st ev = StepResult.fail e) ∨
    handle_event st ev = StepResult.next true st ∨
    (∃ st', handle_event st ev = StepResult.next false st' ∧
      st'.element_stack.length + endCount [ev]
        = st.element_stack.length + startCount [ev]) := by
  cases ev with
  | startTag name attrs =>
    right; right
    refine ⟨_, by simp only [handle_event, hstack]; rfl, ?_⟩
    simp [hstack, endCount, startCount, List.countP_cons]
  | endTag =>
    right; right
    simp only [handle_event, hstack]
    split
    · split
      · exact ⟨_, rfl, by simp [hstack, endCount, startCount, List.countP_cons]⟩
      · exact ⟨_, rfl, by simp [hstack, endCount, startCount, List.countP_cons]⟩
    · exact ⟨_, rfl, by simp [hstack, endCount, startCount, List.countP_cons]⟩
  | emptyTag name attrs =>
    right; right
    refine ⟨_, by simp only [handle_event, hstack]; rfl, ?_⟩
    simp [hstack, endCount, startCount, List.countP_cons]
  | textEv content =>
    right; right
    refine ⟨_, by simp only [handle_event, hstack]; rfl, ?_⟩
    simp [hstack, endCount, startCount, List.countP_cons]
  | docTypeEv content =>
    right; right
    refine ⟨_, by simp only [handle_event, hstack]; rfl, ?_⟩
    simp [hstack, endCount, startCount, List.countP_cons]
  | commentEv content =>
    right; right
    refine ⟨_, by simp only [handle_event, hstack]; rfl, ?_⟩
    simp [hstack, endCount, startCount, List.countP_cons]
  | cdataEv content =>
    right; right
    refine ⟨_, by simp only [handle_event, hstack]; rfl, ?_⟩
    simp [hstack, endCount, startCount, List.countP_cons]
  | piEv content =>
    right; right
    refine ⟨_, by simp only [handle_event, hstack]; rfl, ?_⟩
    simp [hstack, endCount, startCount, List.countP_cons]
  | declEv version encLabel standaloneAttr =>
    left
    exact ⟨_, rfl⟩
  | eof =>
    right; left
    rfl

lemma run_no_panic : ∀ (events : List XEvent) (st : ParserState),
    1 ≤ st.element_stack.length →
    (∀ k, endCount (events.take k) + 1 ≤ startCount (events.take k)
      + st.element_stack.length) →
    parse_content_events st events ≠ RunResult.panicked ∧
    (∀ st', parse_content_events st events = RunResult.outOfEvents st' →
      1 ≤ st'.element_stack.length) ∧
    (∀ st', parse_content_events st events = RunResult.done st' →
      1 ≤ st'.element_stack.length) := by
  intro events
  induction events with
  | nil =>
    intro st hlen _
    refine ⟨by simp [parse_content_events], ?_, ?_⟩
    · intro st' h
      simp only [parse_content_events, RunResult.outOfEvents.injEq] at h
      exact h ▸ hlen
    · intro st' h
      simp [parse_content_events] at h
  | cons ev rest ih =>
    intro st hlen hbal
    obtain ⟨top, stail, hstack⟩ : ∃ a t, st.element_stack = a :: t := by
      cases hs : st.element_stack with
      | nil =>
        rw [hs] at hlen
        simp at hlen
      | cons a t => exact ⟨a, t, rfl⟩
    rcases handle_event_step st ev top stail hstack with ⟨e, hf⟩ | hEof | ⟨st', hstep, hcnt⟩
    · refine ⟨?_, ?_, ?_⟩ <;> simp [parse_content_events, hf]
    · refine ⟨?_, ?_, ?_⟩ <;> simp only [parse_content_events, hEof]
      · simp
      · intro st' h
        simp at h
      · intro st' h
        simp only [RunResult.done.injEq] at h
        exact h ▸ hlen
    · have hbal' : ∀ k, endCount (rest.take k) + 1 ≤ startCount (rest.take k)
          + st'.element_stack.length := by
        intro k
        have hb := hbal (k + 1)
        rw [List.take_succ_cons, endCount_cons_split, startCount_cons_split] at hb
        omega
      have hlen1 : 1 ≤ st'.element_stack.length := by
        have h0 := hbal' 0
        simpa [endCount, startCount] using h0
      simp only [parse_content_events, hstep]
      exact ih st' hlen1 hbal'

/-- C9.  Starting from `parse_reader`'s initial state (stack = the root
container), as long as the tokenizer's event stream is balanced — every
prefix has no more end tags than start tags, i.e. an end tag only arrives
when an unmatched start tag preceded it — event handling never hits the
empty-stack panic, and after any number of processed events the stack still
holds at least one element (the root container is never popped away). -/
theorem c9_stack_depth_invariant :
    ∀ (opts : ReadOptions) (events : List XEvent),
      (∀ k, k ≤ events.length →
        endCount (events.take k) ≤ startCount (events.take k)) →
      ∀ k,
        parse_content_events (initial_state opts) (events.take k) ≠ RunResult.panicked ∧
        (∀ st', parse_content_events (initial_state opts) (events.take k)
            = RunResult.outOfEvents st' → 1 ≤ st'.element_stack.length) ∧
        (∀ st', parse_content_events (initial_state opts) (events.take k)
            = RunResult.done st' → 1 ≤ st'.element_stack.length) := by
  intro opts events hbal k
  apply run_no_panic
  · exact Nat.le_refl 1
  · intro j
    rw [List.take_take]
    by_cases hle : min j k ≤ events.length
    · exact Nat.add_le_add_right (hbal _ hle) 1
    · have hall : events.take (min j k) = events :=
        List.take_of_length_le (Nat.le_of_lt (Nat.lt_of_not_le hle))
      rw [hall]
      have hb := hbal events.length (Nat.le_refl _)
      rw [List.take_length] at hb
      have h1 : (initial_state opts).element_stack.length = 1 := rfl
      omega

/-- Witness for C9: a balanced three-event stream runs without a panic. -/
theorem c9_stack_depth_invariant_witness :
    parse_content_events (initial_state ReadOptions.default)
      ([XEvent.startTag (ascii "a") [], XEvent.endTag, XEvent.eof].take 3)
      ≠ RunResult.panicked :=
  (c9_stack_depth_invariant ReadOptions.default
    [XEvent.startTag (ascii "a") [], XEvent.endTag, XEvent.eof] (by decide) 3).1

end XmlDoc
